import Mathlib

/-
Verification of the data-shaping core of `src/app/storage/chroma-storage.ts`
(Cogni-Docs ChromaDB storage adapter).

The embedding models JavaScript runtime values of metadata fields with the
inductive type `JsVal` (strings, numbers as exact rationals, arrays of
strings), JS truthiness, the `String()` / `Number()` conversions, `.trim()`,
`.split(",")` and `Array.join(",")`.  Metadata records are structures with one
`Option JsVal` slot per field name used by the source (`none` = the property
is absent / `undefined`).  Decimal formatting of non-integral numbers and the
full JS numeric-literal grammar (hex, exponents, `Infinity`) are abstracted:
no claim depends on them.
-/

set_option autoImplicit false

namespace ChromaStorage

/-- Runtime value stored in a metadata field: a JS string, a JS number
(modelled as an exact rational; `NaN` is represented by `Option.none` at the
points where a conversion can produce it), or a JS array of strings. -/
inductive JsVal where
  | str (s : String)
  | num (q : ℚ)
  | arr (l : List String)
deriving DecidableEq, Repr

/-- JS truthiness of a value: `""` and `0` are falsy, every array (even the
empty one) is truthy. -/
def jsTruthy : JsVal → Bool
  | .str s => s != ""
  | .num q => q != 0
  | .arr _ => true

/-- Truthiness of a possibly-absent value: an absent property (`undefined`)
is falsy. -/
def optTruthy : Option JsVal → Bool
  | none => false
  | some v => jsTruthy v

/-- The JS expression `x || d` for a possibly-absent `x` and a default `d`. -/
def jsOr (v : Option JsVal) (d : JsVal) : JsVal :=
  match v with
  | some x => if jsTruthy x then x else d
  | none => d

/-- Whitespace recognized by our model of `String.prototype.trim`. -/
def isJsWs (c : Char) : Bool :=
  c = ' ' || c = '\t' || c = '\n' || c = '\r' || c = '\x0b' || c = '\x0c'

/-- Model of JS `s.trim()`: drop leading and trailing whitespace. -/
def jsTrim (s : String) : String :=
  String.mk (((s.data.dropWhile isJsWs).reverse.dropWhile isJsWs).reverse)

/-- Character content of `l.join(",")` for an array of strings. -/
def joinCommaData : List String → List Char
  | [] => []
  | [s] => s.data
  | s :: rest => s.data ++ ',' :: joinCommaData rest

/-- Model of JS `l.join(",")` for an array of strings. -/
def joinComma (l : List String) : String :=
  String.mk (joinCommaData l)

/-- Helper for `splitComma`: scan the remaining characters, `acc` holds the
characters of the current piece. -/
def splitCommaAux : List Char → List Char → List String
  | [], acc => [String.mk acc]
  | c :: cs, acc =>
    if c = ',' then String.mk acc :: splitCommaAux cs []
    else splitCommaAux cs (acc ++ [c])

/-- Model of JS `s.split(",")` (single-character separator). -/
def splitComma (s : String) : List String :=
  splitCommaAux s.data []

/-- The decode pipeline applied to a stored comma-joined string in
`searchDocuments`: `s.split(",").map(k => k.trim()).filter(k => k)`. -/
def splitTrimFilter (s : String) : List String :=
  ((splitComma s).map jsTrim).filter (fun k => !k.isEmpty)

/-- Digit-string to natural number; `none` when some character is not a
decimal digit or the list is empty. -/
def digitsToNat (cs : List Char) : Option Nat :=
  if cs = [] then none
  else if cs.all (·.isDigit) then
    some (cs.foldl (fun a c => a * 10 + (c.toNat - 48)) 0)
  else none

/-- Model of JS `Number(s)` for a string `s` (decimal integers and decimal
fractions with optional sign; `none` = `NaN`; the empty / all-whitespace
string converts to `0`). -/
def parseJsNumber (s : String) : Option ℚ :=
  let t := jsTrim s
  if t.isEmpty then some 0
  else
    let (sign, body) :=
      match t.data with
      | '-' :: rest => ((-1 : ℚ), rest)
      | '+' :: rest => ((1 : ℚ), rest)
      | cs => ((1 : ℚ), cs)
    let ip := body.takeWhile (· ≠ '.')
    let rest := body.dropWhile (· ≠ '.')
    match rest with
    | [] => (digitsToNat ip).map (fun n => sign * (n : ℚ))
    | _ :: fp =>
      if ip = [] && fp = [] then none
      else
        let ipn := if ip = [] then some 0 else digitsToNat ip
        let fpn := if fp = [] then some 0 else digitsToNat fp
        match ipn, fpn with
        | some a, some b => some (sign * ((a : ℚ) + (b : ℚ) / (10 ^ fp.length)))
        | _, _ => none

/-- Model of JS `Number(x)` on a possibly-absent value; `none` = `NaN`
(`Number(undefined)` is `NaN`; an array converts via its `toString`, i.e. the
comma-join of its elements). -/
def jsToNumber : Option JsVal → Option ℚ
  | none => none
  | some (.num q) => some q
  | some (.str s) => parseJsNumber s
  | some (.arr l) => parseJsNumber (joinComma l)

/-- Model of JS `Number(x) || 0`: `NaN` (and `0` itself) become `0`. -/
def numberOrZero (v : Option JsVal) : ℚ :=
  (jsToNumber v).getD 0

/-- String form of a JS number.  Integral values print exactly as in JS;
the decimal formatting of non-integral values is abstracted by the `Rat`
representation (no claim exercises it). -/
def jsNumToString (q : ℚ) : String :=
  if q.den = 1 then toString q.num else toString q

/-- Model of JS `String(x)`: identity on strings, numeric formatting on
numbers, comma-join on arrays. -/
def jsToString : JsVal → String
  | .str s => s
  | .num q => jsNumToString q
  | .arr l => joinComma l

/-- A metadata record as the source manipulates it: each field name used by
`chroma-storage.ts` maps to an optional runtime value (`none` = the property
is absent).  The same shape serves for caller-supplied metadata, for the
encoded (stored) record and for the decoded record. -/
structure DocumentMetadata where
  source_file : Option JsVal := none
  document_type : Option JsVal := none
  category : Option JsVal := none
  keywords : Option JsVal := none
  chunk_index : Option JsVal := none
  document_id : Option JsVal := none
  mime_type : Option JsVal := none
  size_bytes : Option JsVal := none
  created_at : Option JsVal := none
  page_number : Option JsVal := none
  section_heading : Option JsVal := none
  topic_tags : Option JsVal := none
  code_languages : Option JsVal := none
  entities : Option JsVal := none
  summary : Option JsVal := none
  quality_score : Option JsVal := none
deriving DecidableEq, Repr

/-- The record with every property absent (`{}`). -/
def emptyMeta : DocumentMetadata := {}

/-- The comma-join step applied to the three guarded list fields
(`topic_tags`, `code_languages`, `entities`) once their guard is truthy:
`Array.isArray(v) ? v.join(",") : String(v)`. -/
def joinIfArray : Option JsVal → String
  | some (.arr l) => joinComma l
  | some v => jsToString v
  | none => ""

/-- The `keywords` value stored by the encoder:
`Array.isArray(v) ? v.join(",") : String(v || "")`. -/
def encKeywords : Option JsVal → JsVal
  | some (.arr l) => .str (joinComma l)
  | k => .str (jsToString (jsOr k (.str "")))

/-- The guard `typeof v === "number"` applied to an optional numeric field:
keep the value exactly when it is of numeric type, else omit the field. -/
def encNumField : Option JsVal → Option JsVal
  | some (.num n) => some (.num n)
  | _ => none

/-- Metadata encoding performed per chunk inside `addDocuments`
(`chroma-storage.ts` lines 168-210): required fields are defaulted with
`||`, `keywords` is comma-joined when an array and otherwise stringified
from `keywords || ""`, `chunk_index` is `Number(x) || 0`, each optional
field is added only under its guard (`if (v)` for the string-expected
fields, `typeof v === "number"` for the numeric ones), and the guarded
list fields are comma-joined. -/
def encode (m : DocumentMetadata) : DocumentMetadata where
  source_file := some (jsOr m.source_file (.str ""))
  document_type := some (jsOr m.document_type (.str "unknown"))
  category := some (jsOr m.category (.str ""))
  keywords := some (encKeywords m.keywords)
  chunk_index := some (.num (numberOrZero m.chunk_index))
  document_id := if optTruthy m.document_id then m.document_id else none
  mime_type := if optTruthy m.mime_type then m.mime_type else none
  size_bytes := encNumField m.size_bytes
  created_at := if optTruthy m.created_at then m.created_at else none
  page_number := encNumField m.page_number
  section_heading := if optTruthy m.section_heading then m.section_heading else none
  topic_tags := if optTruthy m.topic_tags then some (.str (joinIfArray m.topic_tags)) else none
  code_languages := if optTruthy m.code_languages then some (.str (joinIfArray m.code_languages)) else none
  entities := if optTruthy m.entities then some (.str (joinIfArray m.entities)) else none
  summary := if optTruthy m.summary then m.summary else none
  quality_score := encNumField m.quality_score

/-- Per-field decode step in `searchDocuments` (lines 258-283): a non-empty
stored string is split on `,`, each part trimmed, empty parts dropped, and
the field replaced by the resulting array; anything else is left untouched
(in particular the empty string stays a string). -/
def decodeField : Option JsVal → Option JsVal
  | some (.str s) => if s != "" then some (.arr (splitTrimFilter s)) else some (.str s)
  | v => v

/-- Metadata decoding performed per hit in `searchDocuments`: list-field
reconstruction for `keywords`, `topic_tags`, `code_languages` and
`entities`; all other fields pass through unchanged. -/
def decode (m : DocumentMetadata) : DocumentMetadata :=
  { m with
    keywords := decodeField m.keywords
    topic_tags := decodeField m.topic_tags
    code_languages := decodeField m.code_languages
    entities := decodeField m.entities }

/-- A chunk record handed to `addDocuments`. -/
structure Chunk where
  id : String
  content : String
  embedding : List ℚ
  metadata : DocumentMetadata
deriving DecidableEq, Repr

/-- One backend `collection.add` call: parallel arrays of ids, embeddings,
contents and encoded metadata. -/
structure AddCall where
  ids : List String
  embeddings : List (List ℚ)
  documents : List String
  metadatas : List DocumentMetadata
deriving DecidableEq, Repr

/-- The fixed ingestion batch size of `addDocuments` (line 160). -/
def batchSize : Nat := 100

/-- Fuel-indexed helper for `toBatches`; the fuel only bounds the
recursion depth and never runs out when it starts at the list length. -/
def toBatchesF : Nat → List Chunk → List (List Chunk)
  | _, [] => []
  | 0, _ :: _ => []
  | fuel + 1, a :: l => (a :: l).take batchSize :: toBatchesF fuel (l.drop (batchSize - 1))

/-- Consecutive slices of size `batchSize`, in order, as produced by the
`for (let i = 0; i < documents.length; i += batchSize)` loop with
`documents.slice(i, i + batchSize)`. -/
def toBatches (l : List Chunk) : List (List Chunk) :=
  toBatchesF l.length l

theorem toBatchesF_fuel :
    ∀ (f1 : Nat) (l : List Chunk) (f2 : Nat), l.length ≤ f1 → l.length ≤ f2 →
      toBatchesF f1 l = toBatchesF f2 l := by
  intro f1
  induction f1 with
  | zero =>
    intro l f2 h1 _
    cases l with
    | nil => cases f2 <;> rfl
    | cons a t => simp at h1
  | succ n ih =>
    intro l f2 h1 h2
    cases l with
    | nil => cases f2 <;> rfl
    | cons a t =>
      cases f2 with
      | zero => simp at h2
      | succ m =>
        simp only [toBatchesF]
        rw [ih (t.drop (batchSize - 1)) m
          (by simp only [List.length_drop]; simp at h1; omega)
          (by simp only [List.length_drop]; simp at h2; omega)]

theorem toBatches_nil : toBatches [] = [] := rfl

theorem toBatches_cons (a : Chunk) (l : List Chunk) :
    toBatches (a :: l) = (a :: l).take batchSize :: toBatches (l.drop (batchSize - 1)) := by
  show toBatchesF (l.length + 1) (a :: l) = _
  simp only [toBatchesF, toBatches]
  rw [toBatchesF_fuel l.length (l.drop (batchSize - 1)) (l.drop (batchSize - 1)).length
    (by simp only [List.length_drop]; omega) le_rfl]

/-- Induction along the batch recursion. -/
theorem toBatches_induction (P : List Chunk → Prop) (h0 : P [])
    (hstep : ∀ a l, P (l.drop (batchSize - 1)) → P (a :: l)) : ∀ l, P l := by
  have key : ∀ n l, List.length l ≤ n → P l := by
    intro n
    induction n with
    | zero =>
      intro l hl
      cases l with
      | nil => exact h0
      | cons a t => simp at hl
    | succ n ih =>
      intro l hl
      cases l with
      | nil => exact h0
      | cons a t =>
        refine hstep a t (ih _ ?_)
        simp only [List.length_drop]
        simp at hl
        omega
  exact fun l => key l.length l le_rfl

/-- The backend call built from one batch (lines 164-212): parallel maps
over the batch, with each chunk's metadata encoded. -/
def mkAddCall (batch : List Chunk) : AddCall where
  ids := batch.map Chunk.id
  embeddings := batch.map Chunk.embedding
  documents := batch.map Chunk.content
  metadatas := batch.map (fun d => encode d.metadata)

/-- The sequence of backend `add` calls that `addDocuments` issues for a
given input array, in order. -/
def addDocumentsCalls (documents : List Chunk) : List AddCall :=
  (toBatches documents).map mkAddCall

/-- Sequential execution of the `add` calls of `addDocuments` against a
backend oracle: `backend k` is `none` when call number `k` (0-based)
succeeds and `some msg` when it throws with message `msg`.  The result is
the list of calls actually applied together with the error thrown by the
surrounding `catch` (`Failed to add documents: ` plus the backend message),
if any.  Helper carrying the index of the next call. -/
def runIngestAux (backend : Nat → Option String) : Nat → List AddCall → List AddCall × Option String
  | _, [] => ([], none)
  | k, c :: rest =>
    match backend k with
    | some msg => ([], some ("Failed to add documents: " ++ msg))
    | none =>
      let r := runIngestAux backend (k + 1) rest
      (c :: r.1, r.2)

/-- Execution of `addDocuments`'s batch loop from the first call. -/
def runIngest (backend : Nat → Option String) (calls : List AddCall) : List AddCall × Option String :=
  runIngestAux backend 0 calls

/-- A logical document as produced by `listDocuments`. -/
structure ListedDocument where
  id : String
  source_file : String
  mime_type : String
  size_bytes : Option ℚ
  created_at : String
deriving DecidableEq, Repr

/-- The `document_id` a chunk's metadata yields in `listDocuments`
(line 122): `String(md.document_id ?? "")`. -/
def docIdOf (md : DocumentMetadata) : String :=
  jsToString (md.document_id.getD (.str ""))

/-- The `ListedDocument` recorded for a first-seen `document_id`
(lines 125-131); `now` stands for `new Date().toISOString()`, `none` in
`size_bytes` stands for `NaN`. -/
def mkListed (now docId : String) (md : DocumentMetadata) : ListedDocument where
  id := docId
  source_file := jsToString (md.source_file.getD (.str "unknown"))
  mime_type := jsToString (md.mime_type.getD (.str "text/plain"))
  size_bytes := jsToNumber (some (md.size_bytes.getD (.num 0)))
  created_at := jsToString (md.created_at.getD (.str now))

/-- The per-chunk step of the dedup loop (lines 121-133): skip an empty or
already-seen `document_id`, otherwise append a new `ListedDocument`
(`Map` insertion order = append order). -/
def processChunk (now : String) (acc : List ListedDocument) (md : DocumentMetadata) : List ListedDocument :=
  let docId := docIdOf md
  if docId = "" || acc.any (fun d => d.id == docId) then acc
  else acc ++ [mkListed now docId md]

/-- The dedup fold of `listDocuments` over the fetched metadata pages. -/
def dedupPages (now : String) (pages : List (List DocumentMetadata)) : List ListedDocument :=
  pages.foldl (fun acc page => page.foldl (processChunk now) acc) []

/-- The fixed page size of `listDocuments` (line 108). -/
def pageSize : Nat := 500

/-- The offsets at which `listDocuments` issues page fetches for a given
total: `0, 500, 1000, …` while the offset is below the total. -/
def pageOffsets (total : Nat) : List Nat :=
  (List.range ((total + pageSize - 1) / pageSize)).map (· * pageSize)

/-- Full `listDocuments` run against a backend whose chunk count is `total`
and whose page fetch at a given offset returns `fetch offset`.  The first
component is the list of offsets actually fetched, the second the returned
documents; a zero count returns immediately with no fetch (line 106). -/
def listDocuments (now : String) (total : Nat) (fetch : Nat → List DocumentMetadata) : List Nat × List ListedDocument :=
  if total = 0 then ([], [])
  else (pageOffsets total, dedupPages now ((pageOffsets total).map fetch))

/-- A translated filter predicate: ChromaDB `$in` over a list or `$eq`
against a scalar. -/
inductive WherePred where
  | isIn (vals : List String)
  | eqv (v : JsVal)
deriving DecidableEq, Repr

/-- Translation of one filter entry (lines 237-243): an array value becomes
an `$in` predicate, anything else an `$eq` predicate. -/
def translateEntry (kv : String × JsVal) : String × WherePred :=
  match kv with
  | (k, .arr l) => (k, .isIn l)
  | (k, v) => (k, .eqv v)

/-- The `where` argument passed to the backend query (lines 234-249): build
the clause from the entries when `filters` is present, then pass it only
when it has at least one key. -/
def whereArg (filters : Option (List (String × JsVal))) : Option (List (String × WherePred)) :=
  let whereClause := match filters with
    | none => []
    | some fs => fs.map translateEntry
  if whereClause.length > 0 then some whereClause else none

/-- The backend query issued by `searchDocuments` (lines 246-251). -/
structure BackendQuery where
  queryEmbeddings : List (List ℚ)
  nResults : Nat
  whereArgument : Option (List (String × WherePred))
deriving DecidableEq, Repr

/-- Construction of the backend query from `searchDocuments`'s arguments. -/
def mkQuery (queryEmbedding : List ℚ) (limit : Nat) (filters : Option (List (String × JsVal))) : BackendQuery where
  queryEmbeddings := [queryEmbedding]
  nResults := limit
  whereArgument := whereArg filters

/-- The first row of a backend query response, as `searchDocuments` reads
it: `ids[0]` (absent row = `undefined`), and the optional per-hit entries of
`documents[0]`, `metadatas[0]` and `distances[0]` (`none` = absent or
`null`). -/
structure QueryResponse where
  ids : Option (List String)
  documents : Option (List (Option String))
  metadatas : Option (List (Option DocumentMetadata))
  distances : Option (List (Option ℚ))

/-- The JS access `row?.[0]?.[index]`: `none` when the array is absent, the
index is out of range, or the entry itself is `null`. -/
def atIdx {α : Type} (o : Option (List (Option α))) (i : Nat) : Option α :=
  (o.getD []).getD i none

/-- A search hit assembled by `searchDocuments`. -/
structure SearchResult where
  id : String
  content : String
  metadata : DocumentMetadata
  similarity : ℚ
deriving DecidableEq, Repr

/-- Assembly of one hit (lines 254-290): content defaults to `""`, metadata
defaults to `{}` and is decoded, similarity is `1 - (distance || 0)`. -/
def mkHit (resp : QueryResponse) (p : Nat × String) : SearchResult where
  id := p.2
  content := (atIdx resp.documents p.1).getD ""
  metadata := decode ((atIdx resp.metadatas p.1).getD emptyMeta)
  similarity := 1 - ((atIdx resp.distances p.1).getD 0)

/-- The result list of `searchDocuments` for a backend response:
`results.ids[0]?.map((id, index) => …) || []`. -/
def searchResults (resp : QueryResponse) : List SearchResult :=
  match resp.ids with
  | none => []
  | some ids => ids.enum.map (mkHit resp)

/-! ### Reference definitions and claim predicates -/

/-- Distinct non-empty document ids of a chunk sequence in order of first
appearance, skipping ids already in `seen` (spec-side reference for the
dedup of `listDocuments`). -/
def newIds : List String → List DocumentMetadata → List String
  | _, [] => []
  | seen, md :: rest =>
    let d := docIdOf md
    if d = "" || seen.any (fun s => s == d) then newIds seen rest
    else d :: newIds (d :: seen) rest

/-- The first chunk of a sequence carrying a given document id. -/
def firstChunkFor (chunks : List DocumentMetadata) (d : String) : Option DocumentMetadata :=
  chunks.find? (fun md => docIdOf md == d)

/-- Spec-side characterization of the deduplication: one `ListedDocument`
per distinct non-empty `document_id` not in `seen`, built from the
first-seen chunk with that id, in order of first appearance. -/
def dedupSpec (now : String) (seen : List String) (chunks : List DocumentMetadata) : List ListedDocument :=
  (newIds seen chunks).filterMap (fun d => (firstChunkFor chunks d).map (mkListed now d))

/-- One field of `m` reproduced in `d` when specified: if the field is
present in `m`, the decoded record carries the same value. -/
def fieldAgrees (mv dv : Option JsVal) : Prop :=
  mv.isSome = true → dv = mv

instance (mv dv : Option JsVal) : Decidable (fieldAgrees mv dv) := by
  unfold fieldAgrees; infer_instance

/-- `decode (encode m)` reproduces `m` on all fields `m` specifies. -/
def agreesOn (m d : DocumentMetadata) : Prop :=
  fieldAgrees m.source_file d.source_file ∧
  fieldAgrees m.document_type d.document_type ∧
  fieldAgrees m.category d.category ∧
  fieldAgrees m.keywords d.keywords ∧
  fieldAgrees m.chunk_index d.chunk_index ∧
  fieldAgrees m.document_id d.document_id ∧
  fieldAgrees m.mime_type d.mime_type ∧
  fieldAgrees m.size_bytes d.size_bytes ∧
  fieldAgrees m.created_at d.created_at ∧
  fieldAgrees m.page_number d.page_number ∧
  fieldAgrees m.section_heading d.section_heading ∧
  fieldAgrees m.topic_tags d.topic_tags ∧
  fieldAgrees m.code_languages d.code_languages ∧
  fieldAgrees m.entities d.entities ∧
  fieldAgrees m.summary d.summary ∧
  fieldAgrees m.quality_score d.quality_score

instance (m d : DocumentMetadata) : Decidable (agreesOn m d) := by
  unfold agreesOn; infer_instance

/-- The element condition of claim C1 as stated: no embedded `,` and not a
pure-whitespace element. -/
def origElemOk (e : String) : Bool :=
  !e.data.contains ',' && !(jsTrim e == "")

/-- A list-valued field satisfies C1's hypothesis when each of its elements
does (non-list values impose nothing). -/
def fieldOrigOk : Option JsVal → Bool
  | some (.arr l) => l.all origElemOk
  | _ => true

/-- Hypothesis of claim C1 as stated, over the four list-valued fields. -/
def roundTripHypOrig (m : DocumentMetadata) : Bool :=
  fieldOrigOk m.keywords && fieldOrigOk m.topic_tags &&
  fieldOrigOk m.code_languages && fieldOrigOk m.entities

/-- Strengthened element condition: non-empty, trim-invariant (no leading
or trailing whitespace) and comma-free. -/
def elemOk (e : String) : Bool :=
  !e.isEmpty && jsTrim e == e && !e.data.contains ','

/-- Amended condition on a list-valued field: absent, or a non-empty list
of elements satisfying `elemOk`. -/
def goodListField : Option JsVal → Bool
  | none => true
  | some (.arr l) => !l.isEmpty && l.all elemOk
  | some _ => false

/-- Field absent or holding a string. -/
def isStrField : Option JsVal → Bool
  | none => true
  | some (.str _) => true
  | some _ => false

/-- Field absent or holding a non-empty string. -/
def isNonEmptyStrField : Option JsVal → Bool
  | none => true
  | some (.str s) => s != ""
  | some _ => false

/-- Field absent or holding a number. -/
def isNumField : Option JsVal → Bool
  | none => true
  | some (.num _) => true
  | some _ => false

/-- Amended hypothesis of claim C1: every present field is well-typed per
the data model, the non-defaultable string fields are non-empty and the
list fields are non-empty lists of `elemOk` elements. -/
def roundTripHypAmended (m : DocumentMetadata) : Prop :=
  isStrField m.source_file = true ∧ isNonEmptyStrField m.document_type = true ∧
  isStrField m.category = true ∧ goodListField m.keywords = true ∧
  isNumField m.chunk_index = true ∧ isNonEmptyStrField m.document_id = true ∧
  isNonEmptyStrField m.mime_type = true ∧ isNumField m.size_bytes = true ∧
  isNonEmptyStrField m.created_at = true ∧ isNumField m.page_number = true ∧
  isNonEmptyStrField m.section_heading = true ∧ goodListField m.topic_tags = true ∧
  goodListField m.code_languages = true ∧ goodListField m.entities = true ∧
  isNonEmptyStrField m.summary = true ∧ isNumField m.quality_score = true

instance (m : DocumentMetadata) : Decidable (roundTripHypAmended m) := by
  unfold roundTripHypAmended; infer_instance

/-- Field present with a value of string type (the expected type of the
optional fields `document_id`, `mime_type`, `created_at`,
`section_heading`, `summary`). -/
def presentStr : Option JsVal → Bool
  | some (.str _) => true
  | _ => false

/-- Field present with a value of numeric type (the expected type of
`size_bytes`, `page_number`, `quality_score`). -/
def presentNum : Option JsVal → Bool
  | some (.num _) => true
  | _ => false

/-- Claim C7 as stated at one record: each optional scalar field appears in
the encoded output iff it is present and of its expected type. -/
def inclusionIffWellTyped (m : DocumentMetadata) : Bool :=
  ((encode m).document_id.isSome == presentStr m.document_id) &&
  ((encode m).mime_type.isSome == presentStr m.mime_type) &&
  ((encode m).size_bytes.isSome == presentNum m.size_bytes) &&
  ((encode m).created_at.isSome == presentStr m.created_at) &&
  ((encode m).page_number.isSome == presentNum m.page_number) &&
  ((encode m).section_heading.isSome == presentStr m.section_heading) &&
  ((encode m).summary.isSome == presentStr m.summary) &&
  ((encode m).quality_score.isSome == presentNum m.quality_score)

/-! ### Concrete inputs used in counterexamples and witnesses -/

/-- A record whose `keywords` list satisfies C1's hypothesis as stated
(no comma, not pure whitespace) but whose element carries leading
whitespace. -/
def mC1 : DocumentMetadata := { emptyMeta with keywords := some (.arr [" a"]) }

/-- A fully-populated well-typed record for the amended round-trip. -/
def mC1w : DocumentMetadata where
  source_file := some (.str "doc.md")
  document_type := some (.str "markdown")
  category := some (.str "guide")
  keywords := some (.arr ["alpha", "beta"])
  chunk_index := some (.num 2)
  document_id := some (.str "doc-1")
  mime_type := some (.str "text/markdown")
  size_bytes := some (.num 2048)
  created_at := some (.str "2024-01-01T00:00:00Z")
  page_number := some (.num 3)
  section_heading := some (.str "Intro")
  topic_tags := some (.arr ["setup"])
  code_languages := some (.arr ["ts", "sh"])
  entities := some (.arr ["Chroma"])
  summary := some (.str "short summary")
  quality_score := some (.num 1)

/-- A record with `document_id` present as the empty string: present and of
string type, yet falsy. -/
def mC7 : DocumentMetadata := { emptyMeta with document_id := some (.str "") }

/-- A record whose four list-valued fields are all the empty list. -/
def mC9 : DocumentMetadata :=
  { emptyMeta with
    keywords := some (.arr [])
    topic_tags := some (.arr [])
    code_languages := some (.arr [])
    entities := some (.arr []) }

/-- One metadata page with duplicate, missing and distinct document ids. -/
def pageC2 : List DocumentMetadata :=
  [{ emptyMeta with document_id := some (.str "d1"), source_file := some (.str "f1") },
   { emptyMeta with document_id := some (.str "d1"), source_file := some (.str "f2") },
   emptyMeta,
   { emptyMeta with document_id := some (.str "d2") }]

/-- Backend oracle that fails exactly at call number `i`. -/
def failAt (i : Nat) : Nat → Option String :=
  fun k => if k = i then some "boom" else none

/-- A minimal chunk record. -/
def c0 : Chunk := ⟨"c", "", [], emptyMeta⟩

/-- 101 identical chunks: enough for two ingestion batches. -/
def docs0 : List Chunk := List.replicate 101 c0

/-- A backend response with one hit at distance `1/5` and no documents
array. -/
def respC5 : QueryResponse := ⟨some ["h"], none, none, some [some (1/5)]⟩

/-- The hit `searchDocuments` assembles from `respC5`. -/
def hitC5 : SearchResult := mkHit respC5 (0, "h")

/-- A backend response with one hit and no distances array at all. -/
def respC10 : QueryResponse := ⟨some ["h"], some [some "text"], none, none⟩

/-- The hit `searchDocuments` assembles from `respC10`. -/
def hitC10 : SearchResult := mkHit respC10 (0, "h")

/-! ### Split / join round-trip lemmas -/

theorem splitCommaAux_no_comma {cs : List Char} (h : ',' ∉ cs) :
    ∀ acc, splitCommaAux cs acc = [String.mk (acc ++ cs)] := by
  induction cs with
  | nil => intro acc; simp [splitCommaAux]
  | cons c cs ih =>
    intro acc
    have hc : ¬(c = ',') := fun e => h (e ▸ List.mem_cons_self c cs)
    rw [splitCommaAux, if_neg hc, ih (fun hm => h (List.mem_cons_of_mem c hm))]
    simp [List.append_assoc]

theorem splitCommaAux_append {xs : List Char} (ys : List Char) (h : ',' ∉ xs) :
    ∀ acc, splitCommaAux (xs ++ ',' :: ys) acc = String.mk (acc ++ xs) :: splitCommaAux ys [] := by
  induction xs with
  | nil => intro acc; simp [splitCommaAux]
  | cons x xs ih =>
    intro acc
    have hx : ¬(x = ',') := fun e => h (e ▸ List.mem_cons_self x xs)
    rw [List.cons_append, splitCommaAux, if_neg hx,
      ih (fun hm => h (List.mem_cons_of_mem x hm))]
    simp [List.append_assoc]

theorem joinComma_cons_cons (e e' : String) (rest : List String) :
    (joinComma (e :: e' :: rest)).data = e.data ++ ',' :: joinCommaData (e' :: rest) := rfl

theorem splitComma_joinComma :
    ∀ l : List String, l ≠ [] → (∀ e ∈ l, ',' ∉ e.data) →
      splitComma (joinComma l) = l := by
  intro l
  induction l with
  | nil => intro h; exact absurd rfl h
  | cons e rest ih =>
    intro _ h
    match rest with
    | [] =>
      show splitCommaAux e.data [] = [e]
      rw [splitCommaAux_no_comma (h e (List.mem_cons_self e [])) []]
      simp
    | e' :: rest' =>
      show splitCommaAux (joinComma (e :: e' :: rest')).data [] = e :: e' :: rest'
      rw [joinComma_cons_cons,
        splitCommaAux_append _ (h e (List.mem_cons_self e _)) []]
      have : splitCommaAux (joinCommaData (e' :: rest')) [] = e' :: rest' :=
        ih (by simp) (fun x hx => h x (List.mem_cons_of_mem e hx))
      rw [this]
      simp

theorem elemOk_spec {e : String} (h : elemOk e = true) :
    e ≠ "" ∧ jsTrim e = e ∧ ',' ∉ e.data := by
  simp only [elemOk, Bool.and_eq_true, Bool.not_eq_true', beq_iff_eq] at h
  obtain ⟨⟨h1, h2⟩, h3⟩ := h
  refine ⟨fun he => by rw [he] at h1; exact absurd h1 (by decide), h2, fun hm => ?_⟩
  have hc : e.data.contains ',' = true := by
    simpa [List.contains] using List.elem_iff.mpr hm
  rw [hc] at h3
  exact absurd h3 (by decide)

theorem splitTrimFilter_joinComma {l : List String} (hne : l ≠ [])
    (h : ∀ e ∈ l, elemOk e = true) : splitTrimFilter (joinComma l) = l := by
  unfold splitTrimFilter
  rw [splitComma_joinComma l hne (fun e he => (elemOk_spec (h e he)).2.2)]
  rw [List.map_congr_left (fun e he => (elemOk_spec (h e he)).2.1), List.map_id']
  rw [List.filter_eq_self.mpr]
  intro e he
  cases hb : e.isEmpty with
  | false => simp [hb]
  | true => exact absurd ((String.isEmpty_iff e).mp hb) (elemOk_spec (h e he)).1

theorem joinComma_ne_empty {l : List String} (hne : l ≠ [])
    (h : ∀ e ∈ l, e ≠ "") : joinComma l ≠ "" := by
  intro heq
  have hdata : joinCommaData l = [] := congrArg String.data heq
  match l with
  | [e] =>
    exact h e (List.mem_cons_self e []) (congrArg String.mk hdata)
  | e :: e' :: rest =>
    simp [joinCommaData] at hdata

theorem jsOr_truthy {v : JsVal} (d : JsVal) (h : jsTruthy v = true) :
    jsOr (some v) d = v := by simp [jsOr, h]

theorem jsOr_str_empty_default (s : String) :
    jsOr (some (.str s)) (.str "") = .str s := by
  by_cases h : s = "" <;> simp [jsOr, jsTruthy, h]

theorem goodListField_spec {l : List String} (h : goodListField (some (.arr l)) = true) :
    l ≠ [] ∧ ∀ e ∈ l, elemOk e = true := by
  simp only [goodListField, Bool.and_eq_true, List.all_eq_true] at h
  refine ⟨fun he => ?_, h.2⟩
  rw [he] at h
  exact absurd h.1 (by decide)

theorem decodeField_joined {l : List String} (hne : l ≠ [])
    (h : ∀ e ∈ l, elemOk e = true) :
    decodeField (some (.str (joinComma l))) = some (.arr l) := by
  have hjoin : joinComma l ≠ "" :=
    joinComma_ne_empty hne (fun e he => (elemOk_spec (h e he)).1)
  simp only [decodeField, bne_iff_ne, ne_eq, hjoin, not_false_eq_true, if_true]
  rw [splitTrimFilter_joinComma hne h]

theorem fa_required_str {v : Option JsVal} (h : isStrField v = true) :
    fieldAgrees v (some (jsOr v (.str ""))) := by
  simp only [fieldAgrees]
  intro hp
  cases v with
  | none => exact absurd hp (by decide)
  | some w =>
    cases w with
    | str s => rw [jsOr_str_empty_default]
    | num q => exact absurd h (by simp [isStrField])
    | arr l => exact absurd h (by simp [isStrField])

theorem fa_default_str {v : Option JsVal} (d : JsVal) (h : isNonEmptyStrField v = true) :
    fieldAgrees v (some (jsOr v d)) := by
  simp only [fieldAgrees]
  intro hp
  cases v with
  | none => exact absurd hp (by decide)
  | some w =>
    cases w with
    | str s =>
      rw [jsOr_truthy d (by simpa [jsTruthy, isNonEmptyStrField] using h)]
    | num q => exact absurd h (by simp [isNonEmptyStrField])
    | arr l => exact absurd h (by simp [isNonEmptyStrField])

theorem fa_opt_truthy {v : Option JsVal} (h : isNonEmptyStrField v = true) :
    fieldAgrees v (if optTruthy v then v else none) := by
  simp only [fieldAgrees]
  intro hp
  cases v with
  | none => exact absurd hp (by decide)
  | some w =>
    cases w with
    | str s =>
      rw [if_pos]
      simpa [optTruthy, jsTruthy, isNonEmptyStrField] using h
    | num q => exact absurd h (by simp [isNonEmptyStrField])
    | arr l => exact absurd h (by simp [isNonEmptyStrField])

theorem fa_num {v : Option JsVal} (h : isNumField v = true) :
    fieldAgrees v (encNumField v) := by
  simp only [fieldAgrees]
  intro hp
  cases v with
  | none => exact absurd hp (by decide)
  | some w =>
    cases w with
    | str s => exact absurd h (by simp [isNumField])
    | num q => rfl
    | arr l => exact absurd h (by simp [isNumField])

theorem fa_chunk_index {v : Option JsVal} (h : isNumField v = true) :
    fieldAgrees v (some (.num (numberOrZero v))) := by
  simp only [fieldAgrees]
  intro hp
  cases v with
  | none => exact absurd hp (by decide)
  | some w =>
    cases w with
    | str s => exact absurd h (by simp [isNumField])
    | num q => simp [numberOrZero, jsToNumber]
    | arr l => exact absurd h (by simp [isNumField])

theorem fa_keywords {v : Option JsVal} (h : goodListField v = true) :
    fieldAgrees v (decodeField (some (encKeywords v))) := by
  simp only [fieldAgrees]
  intro hp
  cases v with
  | none => exact absurd hp (by decide)
  | some w =>
    cases w with
    | str s => exact absurd h (by simp [goodListField])
    | num q => exact absurd h (by simp [goodListField])
    | arr l =>
      obtain ⟨hne, helems⟩ := goodListField_spec h
      exact decodeField_joined hne helems

theorem fa_guarded_list {v : Option JsVal} (h : goodListField v = true) :
    fieldAgrees v (decodeField (if optTruthy v then some (.str (joinIfArray v)) else none)) := by
  simp only [fieldAgrees]
  intro hp
  cases v with
  | none => exact absurd hp (by decide)
  | some w =>
    cases w with
    | str s => exact absurd h (by simp [goodListField])
    | num q => exact absurd h (by simp [goodListField])
    | arr l =>
      obtain ⟨hne, helems⟩ := goodListField_spec h
      rw [if_pos (by simp [optTruthy, jsTruthy])]
      exact decodeField_joined hne helems

/-- Claim C1 (amended): for every metadata record whose present fields are
well-typed per the data model — string fields holding strings
(`document_type` and the optional string fields non-empty), numeric fields
holding numbers, and each list-valued field a non-empty list of non-empty,
comma-free elements without leading or trailing whitespace — decoding the
encoded form reproduces the record on every field it specifies. -/
theorem metadata_roundtrip (m : DocumentMetadata) (h : roundTripHypAmended m) :
    agreesOn m (decode (encode m)) := by
  obtain ⟨h1, h2, h3, h4, h5, h6, h7, h8, h9, h10, h11, h12, h13, h14, h15, h16⟩ := h
  exact ⟨fa_required_str h1, fa_default_str _ h2, fa_required_str h3,
    fa_keywords h4, fa_chunk_index h5, fa_opt_truthy h6, fa_opt_truthy h7,
    fa_num h8, fa_opt_truthy h9, fa_num h10, fa_opt_truthy h11,
    fa_guarded_list h12, fa_guarded_list h13, fa_guarded_list h14,
    fa_opt_truthy h15, fa_num h16⟩

/-- Claim C1 (counterexample): the claim as stated is false.  The record
`mC1` has `keywords = [" a"]`, whose element contains no `,` and is not
pure whitespace, yet decoding the encoded form yields `["a"]`: the
per-element `trim` of the decoder drops the leading space. -/
theorem metadata_roundtrip_counterexample :
    ¬ (∀ m : DocumentMetadata, roundTripHypOrig m = true →
        agreesOn m (decode (encode m))) :=
  fun h => absurd (h mC1 (by decide)) (by decide)

/-- Witness for the amended round-trip at a fully-populated record. -/
theorem metadata_roundtrip_witness :
    roundTripHypAmended mC1w ∧ agreesOn mC1w (decode (encode mC1w)) :=
  ⟨by decide, metadata_roundtrip mC1w (by decide)⟩

/-- Claim C9: a record whose list-valued fields are empty lists encodes
them to the empty string (an empty JS array is truthy and joins to `""`),
and decoding leaves the empty stored string untouched as a string, so
`decode (encode m)` maps an empty-list field to `""` rather than `[]`. -/
theorem empty_list_fields (m : DocumentMetadata)
    (hk : m.keywords = some (.arr []))
    (ht : m.topic_tags = some (.arr []))
    (hc : m.code_languages = some (.arr []))
    (he : m.entities = some (.arr [])) :
    (encode m).keywords = some (.str "") ∧
    (decode (encode m)).keywords = some (.str "") ∧
    (encode m).topic_tags = some (.str "") ∧
    (decode (encode m)).topic_tags = some (.str "") ∧
    (encode m).code_languages = some (.str "") ∧
    (decode (encode m)).code_languages = some (.str "") ∧
    (encode m).entities = some (.str "") ∧
    (decode (encode m)).entities = some (.str "") := by
  refine ⟨?_, ?_, ?_, ?_, ?_, ?_, ?_, ?_⟩ <;>
    simp [encode, decode, hk, ht, hc, he, encKeywords, joinIfArray,
      joinComma, joinCommaData, optTruthy, jsTruthy, decodeField]

/-- Witness for C9 at the record with all four list fields empty. -/
theorem empty_list_fields_witness :
    (encode mC9).keywords = some (.str "") ∧
    (decode (encode mC9)).keywords = some (.str "") ∧
    (encode mC9).topic_tags = some (.str "") ∧
    (decode (encode mC9)).topic_tags = some (.str "") ∧
    (encode mC9).code_languages = some (.str "") ∧
    (decode (encode mC9)).code_languages = some (.str "") ∧
    (encode mC9).entities = some (.str "") ∧
    (decode (encode mC9)).entities = some (.str "") :=
  empty_list_fields mC9 rfl rfl rfl rfl

/-- Claim C7 (counterexample): the claim as stated is false.  `mC7` has
`document_id` present and of string type (the empty string), yet the
encoder drops it, because its guard is JS truthiness, not a type test. -/
theorem optional_fields_counterexample :
    ¬ (∀ m : DocumentMetadata, inclusionIffWellTyped m = true) :=
  fun h => absurd (h mC7) (by decide)

theorem encNumField_isSome (v : Option JsVal) :
    (encNumField v).isSome = presentNum v := by
  cases v with
  | none => rfl
  | some w => cases w <;> rfl

theorem encNumField_some {v : Option JsVal} {w : JsVal} (h : encNumField v = some w) :
    v = some w := by
  cases v with
  | none => exact absurd h (by simp [encNumField])
  | some u =>
    cases u with
    | num n => simp only [encNumField] at h; rw [h]
    | str s => exact absurd h (by simp [encNumField])
    | arr l => exact absurd h (by simp [encNumField])

theorem guarded_isSome (v : Option JsVal) :
    (if optTruthy v then v else none).isSome = optTruthy v := by
  cases hb : optTruthy v with
  | false => simp [hb]
  | true =>
    cases v with
    | none => exact absurd hb (by simp [optTruthy])
    | some w => simp [hb]

theorem guarded_some {v : Option JsVal} {w : JsVal}
    (h : (if optTruthy v then v else none) = some w) : v = some w := by
  cases hb : optTruthy v with
  | false => rw [hb] at h; exact absurd h (by simp)
  | true => rw [hb] at h; simpa using h

/-- Claim C7 (amended): each optional numeric field (`size_bytes`,
`page_number`, `quality_score`) is included iff present with a value of
numeric type; each optional string-expected field (`document_id`,
`mime_type`, `created_at`, `section_heading`, `summary`) is included iff
its value is truthy — so a present empty string is omitted; every included
optional value is passed through unchanged (no coercion); and the five
required fields are always present in the output, so no field of the
output is `null`/`undefined`. -/
theorem optional_fields_encoding (m : DocumentMetadata) :
    ((encode m).size_bytes.isSome = presentNum m.size_bytes) ∧
    ((encode m).page_number.isSome = presentNum m.page_number) ∧
    ((encode m).quality_score.isSome = presentNum m.quality_score) ∧
    ((encode m).document_id.isSome = optTruthy m.document_id) ∧
    ((encode m).mime_type.isSome = optTruthy m.mime_type) ∧
    ((encode m).created_at.isSome = optTruthy m.created_at) ∧
    ((encode m).section_heading.isSome = optTruthy m.section_heading) ∧
    ((encode m).summary.isSome = optTruthy m.summary) ∧
    (∀ v, (encode m).document_id = some v → m.document_id = some v) ∧
    (∀ v, (encode m).mime_type = some v → m.mime_type = some v) ∧
    (∀ v, (encode m).created_at = some v → m.created_at = some v) ∧
    (∀ v, (encode m).section_heading = some v → m.section_heading = some v) ∧
    (∀ v, (encode m).summary = some v → m.summary = some v) ∧
    (∀ v, (encode m).size_bytes = some v → m.size_bytes = some v) ∧
    (∀ v, (encode m).page_number = some v → m.page_number = some v) ∧
    (∀ v, (encode m).quality_score = some v → m.quality_score = some v) ∧
    (encode m).source_file.isSome = true ∧
    (encode m).document_type.isSome = true ∧
    (encode m).category.isSome = true ∧
    (encode m).keywords.isSome = true ∧
    (encode m).chunk_index.isSome = true :=
  ⟨encNumField_isSome _, encNumField_isSome _, encNumField_isSome _,
    guarded_isSome _, guarded_isSome _, guarded_isSome _, guarded_isSome _,
    guarded_isSome _,
    fun _ h => guarded_some h, fun _ h => guarded_some h,
    fun _ h => guarded_some h, fun _ h => guarded_some h,
    fun _ h => guarded_some h,
    fun _ h => encNumField_some h, fun _ h => encNumField_some h,
    fun _ h => encNumField_some h,
    rfl, rfl, rfl, rfl, rfl⟩

/-- Witness for the amended C7: the preservation clause applied at a
concrete record and value. -/
theorem optional_fields_encoding_witness :
    mC1w.document_id = some (.str "doc-1") :=
  (optional_fields_encoding mC1w).2.2.2.2.2.2.2.2.1 (.str "doc-1") (by decide)

theorem runIngestAux_spec (backend : Nat → Option String) :
    ∀ (calls : List AddCall) (s k : Nat) (msg : String),
      (∀ j, j < k → backend (s + j) = none) → backend (s + k) = some msg →
      k < calls.length →
      runIngestAux backend s calls =
        (calls.take k, some ("Failed to add documents: " ++ msg)) := by
  intro calls
  induction calls with
  | nil => intro s k msg _ _ hk; simp at hk
  | cons c rest ih =>
    intro s k msg hpre hfail hk
    cases k with
    | zero =>
      have h0 : backend s = some msg := by simpa using hfail
      simp [runIngestAux, h0]
    | succ n =>
      have h0 : backend s = none := by simpa using hpre 0 (Nat.succ_pos n)
      have hpre' : ∀ j, j < n → backend (s + 1 + j) = none := by
        intro j hj
        rw [show s + 1 + j = s + (j + 1) by omega]
        exact hpre (j + 1) (by omega)
      have hfail' : backend (s + 1 + n) = some msg := by
        rw [show s + 1 + n = s + (n + 1) by omega]
        exact hfail
      have hlen : n < rest.length := by
        simpa using Nat.lt_of_succ_lt_succ hk
      have hrec := ih (s + 1) n msg hpre' hfail' hlen
      simp [runIngestAux, h0, hrec]

/-- Claim C6 (counterexample): the thrown error cannot carry the index of
the first failed batch.  Over the 2-call ingestion of `docs0`, a failure of
batch 0 and a failure of batch 1 with the same backend message produce the
very same error value, so no function can read the failing index back off
the error. -/
theorem ingest_error_counterexample :
    ¬ ∃ indexOfError : Option String → Nat,
      ∀ (backend : Nat → Option String) (k : Nat),
        (∀ j, j < k → backend j = none) → backend k ≠ none →
        k < (addDocumentsCalls docs0).length →
        indexOfError (runIngest backend (addDocumentsCalls docs0)).2 = k := by
  rintro ⟨ext, hext⟩
  have h0 := hext (failAt 0) 0 (fun j hj => absurd hj (by omega))
    (by decide) (by decide)
  have h1 := hext (failAt 1) 1
    (fun j hj => by
      have hj0 : j = 0 := by omega
      subst hj0
      rfl)
    (by decide) (by decide)
  have he : (runIngest (failAt 0) (addDocumentsCalls docs0)).2 =
      (runIngest (failAt 1) (addDocumentsCalls docs0)).2 := by decide
  rw [he] at h0
  rw [h0] at h1
  exact absurd h1 (by decide)

/-- Claim C6 (amended): if backend add call `k` (0-based) is the first to
fail, `addDocuments` has already applied exactly batches `0..k-1` in array
order, never attempts any later batch, and fails with the ingest error
built from the backend's message — the error does not carry the failing
batch index. -/
theorem ingest_failure (backend : Nat → Option String) (docs : List Chunk)
    (k : Nat) (msg : String)
    (hpre : ∀ j, j < k → backend j = none) (hfail : backend k = some msg)
    (hk : k < (addDocumentsCalls docs).length) :
    runIngest backend (addDocumentsCalls docs) =
      ((addDocumentsCalls docs).take k, some ("Failed to add documents: " ++ msg)) :=
  runIngestAux_spec backend (addDocumentsCalls docs) 0 k msg
    (fun j hj => by simpa using hpre j hj) (by simpa using hfail) hk

/-- Witness for the amended C6: a failure of the second batch of a
two-batch ingestion leaves exactly the first batch applied. -/
theorem ingest_failure_witness :
    runIngest (failAt 1) (addDocumentsCalls docs0) =
      ((addDocumentsCalls docs0).take 1,
        some ("Failed to add documents: " ++ "boom")) :=
  ingest_failure (failAt 1) docs0 1 "boom"
    (fun j hj => by
      have hj0 : j = 0 := by omega
      subst hj0
      rfl)
    rfl (by decide)

theorem length_toBatches : ∀ (l : List Chunk),
    (toBatches l).length = (l.length + 99) / 100 := by
  refine toBatches_induction _ ?_ ?_
  · simp [toBatches_nil]
  · intro a l ih
    rw [toBatches_cons]
    simp only [List.length_cons, List.length_drop, batchSize] at *
    omega

theorem flatten_toBatches : ∀ (l : List Chunk), (toBatches l).flatten = l := by
  refine toBatches_induction _ ?_ ?_
  · simp [toBatches_nil]
  · intro a l ih
    rw [toBatches_cons, List.flatten_cons, ih]
    rw [show l.drop (batchSize - 1) = (a :: l).drop batchSize from rfl]
    exact List.take_append_drop _ _

theorem mem_toBatches_length (b : List Chunk) : ∀ (l : List Chunk),
    b ∈ toBatches l → b.length ≤ batchSize := by
  refine toBatches_induction _ ?_ ?_
  · rw [toBatches_nil]; intro h; simp at h
  · intro a l ih h
    rw [toBatches_cons] at h
    rcases List.mem_cons.mp h with h1 | h2
    · subst h1; exact List.length_take_le _ _
    · exact ih h2

/-- Claim C3: `addDocuments` cuts its input into consecutive batches of
fixed size 100 and issues exactly `ceil(N/100)` backend add calls in array
order, each of size at most 100, with parallel arrays of ids, embeddings,
contents, and encoded metadata, covering all N records exactly once in
order. -/
theorem addDocuments_batching (documents : List Chunk) :
    (addDocumentsCalls documents).length = (documents.length + (batchSize - 1)) / batchSize ∧
    (∀ c ∈ addDocumentsCalls documents,
      c.ids.length ≤ batchSize ∧ c.embeddings.length = c.ids.length ∧
      c.documents.length = c.ids.length ∧ c.metadatas.length = c.ids.length) ∧
    ((addDocumentsCalls documents).map AddCall.ids).flatten = documents.map Chunk.id ∧
    ((addDocumentsCalls documents).map AddCall.embeddings).flatten
      = documents.map Chunk.embedding ∧
    ((addDocumentsCalls documents).map AddCall.documents).flatten
      = documents.map Chunk.content ∧
    ((addDocumentsCalls documents).map AddCall.metadatas).flatten
      = documents.map (fun d => encode d.metadata) := by
  refine ⟨?_, ?_, ?_, ?_, ?_, ?_⟩
  · rw [addDocumentsCalls, List.length_map, length_toBatches]
    rfl
  · intro c hc
    rw [addDocumentsCalls] at hc
    obtain ⟨b, hb, rfl⟩ := List.mem_map.mp hc
    exact ⟨by simpa [mkAddCall] using mem_toBatches_length b documents hb,
      by simp [mkAddCall], by simp [mkAddCall], by simp [mkAddCall]⟩
  · rw [addDocumentsCalls, List.map_map,
      show AddCall.ids ∘ mkAddCall = List.map Chunk.id from rfl,
      ← List.map_flatten, flatten_toBatches]
  · rw [addDocumentsCalls, List.map_map,
      show AddCall.embeddings ∘ mkAddCall = List.map Chunk.embedding from rfl,
      ← List.map_flatten, flatten_toBatches]
  · rw [addDocumentsCalls, List.map_map,
      show AddCall.documents ∘ mkAddCall = List.map Chunk.content from rfl,
      ← List.map_flatten, flatten_toBatches]
  · rw [addDocumentsCalls, List.map_map,
      show AddCall.metadatas ∘ mkAddCall = List.map (fun d => encode d.metadata) from rfl,
      ← List.map_flatten, flatten_toBatches]

theorem mkListed_id (now d : String) (md : DocumentMetadata) :
    (mkListed now d md).id = d := rfl

theorem any_map_id_beq (acc : List ListedDocument) (d : String) :
    (acc.map ListedDocument.id).any (fun s => s == d) = acc.any (fun x => x.id == d) := by
  induction acc with
  | nil => rfl
  | cons a l ih => simp only [List.map_cons, List.any_cons, ih]

theorem newIds_spec : ∀ (chunks : List DocumentMetadata) (seen : List String) (d : String),
    d ∈ newIds seen chunks → d ≠ "" ∧ seen.any (fun s => s == d) = false := by
  intro chunks
  induction chunks with
  | nil => intro seen d h; simp [newIds] at h
  | cons md rest ih =>
    intro seen d h
    simp only [newIds] at h
    by_cases h1 : docIdOf md = ""
    · rw [if_pos (by simp [h1])] at h
      exact ih seen d h
    · cases h2 : seen.any (fun s => s == docIdOf md) with
      | true =>
        rw [if_pos (by simp [h2])] at h
        exact ih seen d h
      | false =>
        rw [if_neg (by simp [h1, h2])] at h
        rcases List.mem_cons.mp h with rfl | hmem
        · exact ⟨h1, h2⟩
        · have hd := ih (docIdOf md :: seen) d hmem
          refine ⟨hd.1, ?_⟩
          have hseen := hd.2
          simp only [List.any_cons, Bool.or_eq_false_iff] at hseen
          exact hseen.2

theorem newIds_congr : ∀ (chunks : List DocumentMetadata) (s1 s2 : List String),
    (∀ x, s1.any (fun s => s == x) = s2.any (fun s => s == x)) →
    newIds s1 chunks = newIds s2 chunks := by
  intro chunks
  induction chunks with
  | nil => intro s1 s2 _; rfl
  | cons md rest ih =>
    intro s1 s2 h
    simp only [newIds, h (docIdOf md)]
    cases hb : (decide (docIdOf md = "") || s2.any (fun s => s == docIdOf md)) with
    | true => simp only [hb, if_true]; exact ih s1 s2 h
    | false =>
      simp only [hb, Bool.false_eq_true, if_false]
      rw [ih (docIdOf md :: s1) (docIdOf md :: s2)
        (fun x => by simp only [List.any_cons, h x])]

theorem dedupSpec_congr (now : String) (chunks : List DocumentMetadata)
    (s1 s2 : List String)
    (h : ∀ x, s1.any (fun s => s == x) = s2.any (fun s => s == x)) :
    dedupSpec now s1 chunks = dedupSpec now s2 chunks := by
  unfold dedupSpec
  rw [newIds_congr chunks s1 s2 h]

theorem firstChunkFor_cons_ne {md : DocumentMetadata} {d : String}
    (rest : List DocumentMetadata) (h : docIdOf md ≠ d) :
    firstChunkFor (md :: rest) d = firstChunkFor rest d := by
  simp only [firstChunkFor, List.find?_cons]
  rw [show (docIdOf md == d) = false by simpa using h]

theorem dedupSpec_skip (now : String) (seen : List String)
    (md : DocumentMetadata) (rest : List DocumentMetadata)
    (hcond : (decide (docIdOf md = "") || seen.any (fun s => s == docIdOf md)) = true) :
    dedupSpec now seen (md :: rest) = dedupSpec now seen rest := by
  unfold dedupSpec
  have hids : newIds seen (md :: rest) = newIds seen rest := by
    simp only [newIds]
    rw [if_pos hcond]
  rw [hids]
  refine List.filterMap_congr (fun d hd => ?_)
  have hprop := newIds_spec rest seen d hd
  have hne : docIdOf md ≠ d := by
    intro he
    rcases Bool.or_eq_true_iff.mp hcond with hc | hc
    · exact hprop.1 (he ▸ of_decide_eq_true hc)
    · rw [he] at hc
      rw [hc] at hprop
      exact absurd hprop.2 (by decide)
  rw [firstChunkFor_cons_ne rest hne]

theorem dedupSpec_keep (now : String) (seen : List String)
    (md : DocumentMetadata) (rest : List DocumentMetadata)
    (h1 : docIdOf md ≠ "") (h2 : seen.any (fun s => s == docIdOf md) = false) :
    dedupSpec now seen (md :: rest) =
      mkListed now (docIdOf md) md :: dedupSpec now (docIdOf md :: seen) rest := by
  unfold dedupSpec
  have hids : newIds seen (md :: rest) =
      docIdOf md :: newIds (docIdOf md :: seen) rest := by
    simp only [newIds]
    rw [if_neg (by simp [h1, h2])]
  rw [hids, List.filterMap_cons]
  have hfirst : firstChunkFor (md :: rest) (docIdOf md) = some md := by
    simp [firstChunkFor, List.find?_cons]
  rw [hfirst]
  simp only [Option.map_some']
  congr 1
  refine List.filterMap_congr (fun d hd => ?_)
  have hprop := newIds_spec rest (docIdOf md :: seen) d hd
  have hne : docIdOf md ≠ d := by
    intro he
    have := hprop.2
    simp only [List.any_cons, Bool.or_eq_false_iff] at this
    rw [he] at this
    simpa using this.1
  rw [firstChunkFor_cons_ne rest hne]

theorem dedup_go (now : String) : ∀ (chunks : List DocumentMetadata)
    (acc : List ListedDocument),
    chunks.foldl (processChunk now) acc =
      acc ++ dedupSpec now (acc.map ListedDocument.id) chunks := by
  intro chunks
  induction chunks with
  | nil => intro acc; simp [dedupSpec, newIds]
  | cons md rest ih =>
    intro acc
    rw [List.foldl_cons]
    by_cases hskip : (decide (docIdOf md = "") ||
        acc.any (fun x => x.id == docIdOf md)) = true
    · have hp : processChunk now acc md = acc := by
        simp only [processChunk]
        rw [if_pos hskip]
      rw [hp, ih acc,
        dedupSpec_skip now _ md rest (by rw [any_map_id_beq]; exact hskip)]
    · have hc : (decide (docIdOf md = "") ||
          acc.any (fun x => x.id == docIdOf md)) = false := by
        cases hb : (decide (docIdOf md = "") ||
            acc.any (fun x => x.id == docIdOf md)) with
        | false => rfl
        | true => exact absurd hb hskip
      obtain ⟨hd1, hd2⟩ := Bool.or_eq_false_iff.mp hc
      have h1 : docIdOf md ≠ "" := of_decide_eq_false hd1
      have hp : processChunk now acc md =
          acc ++ [mkListed now (docIdOf md) md] := by
        simp only [processChunk]
        rw [if_neg (by rw [hc]; exact Bool.false_ne_true)]
      rw [hp, ih (acc ++ [mkListed now (docIdOf md) md]),
        dedupSpec_keep now (acc.map ListedDocument.id) md rest h1
          (by rw [any_map_id_beq]; exact hd2),
        List.append_assoc, List.singleton_append]
      congr 2
      exact dedupSpec_congr now rest _ _ (fun y => by
        simp only [List.map_append, List.map_cons, List.map_nil, mkListed_id,
          List.any_append, List.any_cons, List.any_nil, Bool.or_false]
        exact Bool.or_comm _ _)

/-- Witness for C3: the single-batch ingestion of one chunk issues one
call of size 1. -/
theorem addDocuments_batching_witness :
    (addDocumentsCalls [c0]).length =
      (([c0] : List Chunk).length + (batchSize - 1)) / batchSize ∧
    (mkAddCall [c0]).ids.length ≤ batchSize :=
  ⟨(addDocuments_batching [c0]).1,
    ((addDocuments_batching [c0]).2.1 (mkAddCall [c0]) (by decide)).1⟩

/-- Claim C2: the documents returned by `listDocuments` are exactly one
`LogicalDocument` per distinct non-empty `document_id` over the fetched
pages, built from the first-seen chunk, in order of first appearance
(`dedupSpec`), and the per-field defaults are `"unknown"`,
`"text/plain"`, `0` and the current time string. -/
theorem listDocuments_dedup (now : String) (total : Nat)
    (fetch : Nat → List DocumentMetadata) (md : DocumentMetadata) (d : String) :
    (listDocuments now total fetch).2 =
      dedupSpec now [] (((pageOffsets total).map fetch).flatten) ∧
    (md.source_file = none → (mkListed now d md).source_file = "unknown") ∧
    (md.mime_type = none → (mkListed now d md).mime_type = "text/plain") ∧
    (md.size_bytes = none → (mkListed now d md).size_bytes = some 0) ∧
    (md.created_at = none → (mkListed now d md).created_at = now) := by
  refine ⟨?_, ?_, ?_, ?_, ?_⟩
  · by_cases h : total = 0
    · subst h
      rfl
    · simp only [listDocuments, if_neg h]
      show dedupPages now ((pageOffsets total).map fetch) = _
      simp only [dedupPages]
      rw [← List.foldl_flatten, dedup_go now _ []]
      simp [dedupSpec]
  · intro h; simp [mkListed, h, jsToString]
  · intro h; simp [mkListed, h, jsToString]
  · intro h; simp [mkListed, h, jsToNumber]
  · intro h; simp [mkListed, h, jsToString]

/-- Witness for C2 on a concrete page with duplicate, empty and distinct
document ids, and the four defaults at the all-absent record. -/
theorem listDocuments_dedup_witness :
    (listDocuments "T0" 4 (fun _ => pageC2)).2 =
      dedupSpec "T0" [] (((pageOffsets 4).map (fun _ => pageC2)).flatten) ∧
    (mkListed "T0" "d" emptyMeta).source_file = "unknown" ∧
    (mkListed "T0" "d" emptyMeta).mime_type = "text/plain" ∧
    (mkListed "T0" "d" emptyMeta).size_bytes = some 0 ∧
    (mkListed "T0" "d" emptyMeta).created_at = "T0" := by
  have h := listDocuments_dedup "T0" 4 (fun _ => pageC2) emptyMeta "d"
  exact ⟨h.1, h.2.1 rfl, h.2.2.1 rfl, h.2.2.2.1 rfl, h.2.2.2.2 rfl⟩

/-- Claim C8: on a set with chunk count 0, `listDocuments` returns the
empty sequence immediately and the trace of fetched page offsets (the
first component) is empty — no page fetch is issued. -/
theorem listDocuments_empty (now : String) (fetch : Nat → List DocumentMetadata) :
    listDocuments now 0 fetch = ([], []) := rfl

/-- Claim C4: an array-valued filter entry translates to an `$in`
predicate over the list, a scalar entry to an `$eq` predicate, and an
empty or absent filter map yields no `where` argument at all. -/
theorem filter_translation (queryEmbedding : List ℚ) (limit : Nat) :
    (mkQuery queryEmbedding limit none).whereArgument = none ∧
    (mkQuery queryEmbedding limit (some [])).whereArgument = none ∧
    (∀ fs, fs ≠ [] →
      (mkQuery queryEmbedding limit (some fs)).whereArgument =
        some (fs.map translateEntry)) ∧
    (∀ k l, translateEntry (k, .arr l) = (k, .isIn l)) ∧
    (∀ k s, translateEntry (k, .str s) = (k, .eqv (.str s))) ∧
    (∀ k q, translateEntry (k, .num q) = (k, .eqv (.num q))) := by
  refine ⟨rfl, rfl, ?_, fun k l => rfl, fun k s => rfl, fun k q => rfl⟩
  intro fs hfs
  show whereArg (some fs) = some (fs.map translateEntry)
  simp only [whereArg]
  rw [if_pos (by simpa using List.length_pos.mpr hfs)]

/-- Witness for C4 at the filter map of the spec's example. -/
theorem filter_translation_witness :
    (mkQuery [1] 10 (some [("document_type", .arr ["a", "b"]),
        ("category", .str "x")])).whereArgument =
      some [("document_type", .isIn ["a", "b"]),
        ("category", .eqv (.str "x"))] :=
  (filter_translation [1] 10).2.2.1
    [("document_type", .arr ["a", "b"]), ("category", .str "x")] (by simp)

theorem searchResults_getElem {resp : QueryResponse} {i : Nat} {r : SearchResult}
    (hr : (searchResults resp)[i]? = some r) :
    ∃ ids idv, resp.ids = some ids ∧ ids[i]? = some idv ∧ r = mkHit resp (i, idv) := by
  cases hids : resp.ids with
  | none =>
    rw [show searchResults resp = [] by simp [searchResults, hids]] at hr
    simp at hr
  | some ids =>
    have hmap : (searchResults resp)[i]? =
        (ids[i]?).map (fun a => mkHit resp (i, a)) := by
      simp only [searchResults, hids]
      rw [List.getElem?_map, List.getElem?_enum, Option.map_map]
      rfl
    rw [hmap] at hr
    cases hid : ids[i]? with
    | none => rw [hid] at hr; simp at hr
    | some idv =>
      rw [hid] at hr
      simp only [Option.map_some'] at hr
      exact ⟨ids, idv, rfl, hid, (Option.some.inj hr).symm⟩

/-- Claim C5: each assembled hit's similarity is `1 - distance` exactly,
with no clamping — a distance above 1 gives a negative similarity and a
negative distance a similarity above 1 — and missing content defaults to
the empty string. -/
theorem similarity_assembly (resp : QueryResponse) (i : Nat) (r : SearchResult)
    (hr : (searchResults resp)[i]? = some r) :
    r.similarity = 1 - ((atIdx resp.distances i).getD 0) ∧
    (∀ dq : ℚ, atIdx resp.distances i = some dq → r.similarity = 1 - dq) ∧
    (atIdx resp.documents i = none → r.content = "") ∧
    (∀ dq : ℚ, atIdx resp.distances i = some dq → 1 < dq → r.similarity < 0) ∧
    (∀ dq : ℚ, atIdx resp.distances i = some dq → dq < 0 → 1 < r.similarity) := by
  obtain ⟨ids, idv, hids, hid, rfl⟩ := searchResults_getElem hr
  refine ⟨rfl, ?_, ?_, ?_, ?_⟩
  · intro dq hdq; simp [mkHit, hdq]
  · intro hdoc; simp [mkHit, hdoc]
  · intro dq hdq hgt
    simp only [mkHit, hdq, Option.getD_some]
    linarith
  · intro dq hdq hlt
    simp only [mkHit, hdq, Option.getD_some]
    linarith

/-- Witness for C5: a reported distance of `1/5` (i.e. 0.2) yields
similarity `4/5` (i.e. 0.8), and the missing documents array defaults the
content to `""`. -/
theorem similarity_assembly_witness :
    (searchResults respC5)[0]? = some hitC5 ∧
    hitC5.similarity = 1 - 1/5 ∧ hitC5.similarity = 4/5 ∧ hitC5.content = "" := by
  have h := similarity_assembly respC5 0 hitC5 rfl
  refine ⟨rfl, h.2.1 (1/5) rfl, ?_, h.2.2.1 rfl⟩
  rw [h.2.1 (1/5) rfl]
  norm_num

/-- Claim C10: a hit whose distance entry is absent (in particular when
the whole distances array is missing) gets similarity exactly `1`, the
same value as a reported distance of `0`. -/
theorem missing_distance_similarity (resp : QueryResponse) (i : Nat) (r : SearchResult)
    (hr : (searchResults resp)[i]? = some r)
    (hd : atIdx resp.distances i = none) :
    r.similarity = 1 ∧ r.similarity = 1 - (0 : ℚ) := by
  obtain ⟨ids, idv, hids, hid, rfl⟩ := searchResults_getElem hr
  constructor
  · simp [mkHit, hd]
  · simp [mkHit, hd]

/-- Witness for C10 at a response with no distances array. -/
theorem missing_distance_similarity_witness :
    (searchResults respC10)[0]? = some hitC10 ∧ hitC10.similarity = 1 :=
  ⟨rfl, (missing_distance_similarity respC10 0 hitC10 rfl rfl).1⟩

end ChromaStorage
